import Mathlib

/-!
# Resilience middleware: formal model

Shallow embedding of the fault-tolerance middleware: the sliding-window
`RateLimiter`, the `CircuitBreaker` state machine, the `RetryPattern`
bounded-retry loop, and the `Bulkhead` concurrency isolator, together
with theorems settling the specification claims about them.

Times are modelled as `Int` milliseconds (the JS `Date.now()` clock).
JS `null` for a never-set timestamp is modelled as `0`, matching the JS
coercion `Date.now() - null === Date.now() - 0`.
-/

namespace Resilience

/-- Models the JS idiom `options.x || default` for a numeric option:
an absent value or an explicitly supplied falsy value (`0`) yields the
default. -/
def jsOrNat (o : Option Nat) (d : Nat) : Nat :=
  match o with
  | none => d
  | some v => if v = 0 then d else v

/-- Models the JS idiom `options.x || default` for an integer option. -/
def jsOrInt (o : Option Int) (d : Int) : Int :=
  match o with
  | none => d
  | some v => if v = 0 then d else v

/-- Models the JS idiom `options.x || default` for a string option
(the empty string is falsy). -/
def jsOrStr (o : Option String) (d : String) : String :=
  match o with
  | none => d
  | some v => if v = "" then d else v

/-! ## RateLimiter (sliding window) -/

/-- The `stats` record of `RateLimiter`. -/
structure RLStats where
  totalRequests : Nat
  allowedRequests : Nat
  rejectedRequests : Nat
deriving DecidableEq

/-- State of a `RateLimiter` instance: configuration, the sliding-window
timestamp list `requests`, and the stats counters. -/
structure RateLimiter where
  maxRequests : Nat
  windowMs : Int
  requests : List Int
  stats : RLStats
deriving DecidableEq

/-- Constructor options of `RateLimiter` (all optional). -/
structure RLOptions where
  maxRequests : Option Nat := none
  windowMs : Option Int := none

/-- `new RateLimiter(options)`: defaults `maxRequests = 10`,
`windowMs = 60000`, empty timestamp list, zeroed stats. -/
def mkRateLimiter (o : RLOptions) : RateLimiter :=
  { maxRequests := jsOrNat o.maxRequests 10
    windowMs := jsOrInt o.windowMs 60000
    requests := []
    stats := ⟨0, 0, 0⟩ }

/-- `cleanupOldRequests(now)`: keep only timestamps strictly newer than
`windowStart = now - windowMs`. -/
def RateLimiter.cleanupOldRequests (rl : RateLimiter) (now : Int) : RateLimiter :=
  { rl with requests := rl.requests.filter (fun t => decide (now - rl.windowMs < t)) }

/-- `tryAcquire()`: bump `totalRequests`, prune old timestamps, then either
reject (count at capacity) or append `now` and admit. -/
def RateLimiter.tryAcquire (rl : RateLimiter) (now : Int) : Bool × RateLimiter :=
  let rl1 := { rl with stats := { rl.stats with totalRequests := rl.stats.totalRequests + 1 } }
  let rl2 := rl1.cleanupOldRequests now
  if rl2.maxRequests ≤ rl2.requests.length then
    (false, { rl2 with stats := { rl2.stats with rejectedRequests := rl2.stats.rejectedRequests + 1 } })
  else
    (true, { rl2 with
      requests := rl2.requests ++ [now]
      stats := { rl2.stats with allowedRequests := rl2.stats.allowedRequests + 1 } })

/-- `reset()`: clears the timestamp list only (the stats are untouched). -/
def RateLimiter.reset (rl : RateLimiter) : RateLimiter :=
  { rl with requests := [] }

/-- Run a sequence of `tryAcquire` calls at the given times, collecting
the admission decisions and the final limiter state. -/
def runTA : RateLimiter → List Int → List Bool × RateLimiter
  | rl, [] => ([], rl)
  | rl, t :: ts =>
    let r := rl.tryAcquire t
    let rest := runTA r.2 ts
    (r.1 :: rest.1, rest.2)

/-! ## CircuitBreaker (state machine) -/

/-- The three circuit-breaker states. -/
inductive CBState
  | CLOSED
  | OPEN
  | HALF_OPEN
deriving DecidableEq

/-- The `stats` record of `CircuitBreaker`, including the transition
history log. -/
structure CBStats where
  totalRequests : Nat
  successfulRequests : Nat
  failedRequests : Nat
  rejectedRequests : Nat
  stateChanges : List (CBState × CBState)
deriving DecidableEq

/-- State of a `CircuitBreaker` instance. `lastFailureTime = 0` models the
initial JS `null`. -/
structure CircuitBreaker where
  failureThreshold : Nat
  resetTimeout : Int
  halfOpenRequests : Nat
  state : CBState
  failureCount : Nat
  successCount : Nat
  lastFailureTime : Int
  halfOpenAttempts : Nat
  stats : CBStats
deriving DecidableEq

/-- Constructor options of `CircuitBreaker` (all optional). -/
structure CBOptions where
  failureThreshold : Option Nat := none
  resetTimeout : Option Int := none
  halfOpenRequests : Option Nat := none

/-- `new CircuitBreaker(options)`: defaults `failureThreshold = 5`,
`resetTimeout = 30000`, `halfOpenRequests = 3`; starts `CLOSED` with all
counters zero. -/
def mkCircuitBreaker (o : CBOptions) : CircuitBreaker :=
  { failureThreshold := jsOrNat o.failureThreshold 5
    resetTimeout := jsOrInt o.resetTimeout 30000
    halfOpenRequests := jsOrNat o.halfOpenRequests 3
    state := CBState.CLOSED
    failureCount := 0
    successCount := 0
    lastFailureTime := 0
    halfOpenAttempts := 0
    stats := ⟨0, 0, 0, 0, []⟩ }

/-- `changeState(newState)`: set the state and append to the transition
history. -/
def CircuitBreaker.changeState (cb : CircuitBreaker) (ns : CBState) : CircuitBreaker :=
  { cb with
    state := ns
    stats := { cb.stats with stateChanges := cb.stats.stateChanges ++ [(cb.state, ns)] } }

/-- `resetCounts()`. -/
def CircuitBreaker.resetCounts (cb : CircuitBreaker) : CircuitBreaker :=
  { cb with failureCount := 0, successCount := 0, halfOpenAttempts := 0 }

/-- `evaluateState()`: the lazy `OPEN → HALF_OPEN` transition, checked at
the start of each call; it zeroes `halfOpenAttempts` (and only that
counter). -/
def CircuitBreaker.evaluateState (cb : CircuitBreaker) (now : Int) : CircuitBreaker :=
  if cb.state = CBState.OPEN then
    if cb.resetTimeout ≤ now - cb.lastFailureTime then
      { cb.changeState CBState.HALF_OPEN with halfOpenAttempts := 0 }
    else cb
  else cb

/-- `onSuccess()`: in `HALF_OPEN`, bump both success counters and close the
circuit when `successCount` reaches `halfOpenRequests`; otherwise reset
the failure counter. -/
def CircuitBreaker.onSuccess (cb : CircuitBreaker) : CircuitBreaker :=
  if cb.state = CBState.HALF_OPEN then
    let cb1 := { cb with
      successCount := cb.successCount + 1
      halfOpenAttempts := cb.halfOpenAttempts + 1 }
    if cb1.halfOpenRequests ≤ cb1.successCount then
      (cb1.changeState CBState.CLOSED).resetCounts
    else cb1
  else { cb with failureCount := 0 }

/-- `onFailure()`: bump the failure counter, record the failure time, and
open the circuit from `HALF_OPEN` (single strike) or from any state once
the failure threshold is reached. -/
def CircuitBreaker.onFailure (cb : CircuitBreaker) (now : Int) : CircuitBreaker :=
  let cb1 := { cb with failureCount := cb.failureCount + 1, lastFailureTime := now }
  if cb1.state = CBState.HALF_OPEN then
    cb1.changeState CBState.OPEN
  else if cb1.failureThreshold ≤ cb1.failureCount then
    cb1.changeState CBState.OPEN
  else cb1

/-- Result of one `execute` call: `ok` (operation succeeded), `circuitOpen`
(rejected with code `CIRCUIT_OPEN`), or `downstream` (the operation's own
failure re-raised). -/
inductive CBOutcome
  | ok
  | circuitOpen
  | downstream
deriving DecidableEq

/-- One `execute` call: its outcome, whether the supplied operation was
invoked, and the breaker state afterwards. -/
structure CBExec where
  outcome : CBOutcome
  invoked : Bool
  cb : CircuitBreaker
deriving DecidableEq

/-- `execute(fn)`: bump `totalRequests`, evaluate the lazy transition,
fail fast with `CIRCUIT_OPEN` while `OPEN`, otherwise invoke the
operation (`opSucceeds` is its outcome) and run the success/failure
transition logic. -/
def CircuitBreaker.execute (cb : CircuitBreaker) (now : Int) (opSucceeds : Bool) : CBExec :=
  let cb1 := { cb with stats := { cb.stats with totalRequests := cb.stats.totalRequests + 1 } }
  let cb2 := cb1.evaluateState now
  if cb2.state = CBState.OPEN then
    { outcome := CBOutcome.circuitOpen
      invoked := false
      cb := { cb2 with stats := { cb2.stats with rejectedRequests := cb2.stats.rejectedRequests + 1 } } }
  else if opSucceeds then
    let cb3 := cb2.onSuccess
    { outcome := CBOutcome.ok
      invoked := true
      cb := { cb3 with stats := { cb3.stats with successfulRequests := cb3.stats.successfulRequests + 1 } } }
  else
    let cb3 := cb2.onFailure now
    { outcome := CBOutcome.downstream
      invoked := true
      cb := { cb3 with stats := { cb3.stats with failedRequests := cb3.stats.failedRequests + 1 } } }

/-- `reset()`: force the state back to `CLOSED` (without logging a
transition) and zero the three counters; `lastFailureTime` and the stats
are untouched. -/
def CircuitBreaker.reset (cb : CircuitBreaker) : CircuitBreaker :=
  { cb with state := CBState.CLOSED }.resetCounts

/-- Run a sequence of `execute` calls (each given by its time and the
operation's outcome), returning the final breaker state. -/
def runCB : CircuitBreaker → List (Int × Bool) → CircuitBreaker
  | cb, [] => cb
  | cb, c :: cs => runCB (cb.execute c.1 c.2).cb cs

/-- Run a sequence of `execute` calls, collecting the call outcomes. -/
def runCBOut : CircuitBreaker → List (Int × Bool) → List CBOutcome
  | _, [] => []
  | cb, c :: cs => (cb.execute c.1 c.2).outcome :: runCBOut (cb.execute c.1 c.2).cb cs

/-- Run a sequence of failing `execute` calls at the given times. -/
def failRun : CircuitBreaker → List Int → CircuitBreaker
  | cb, [] => cb
  | cb, t :: ts => failRun (cb.execute t false).cb ts

/-! ## RetryPattern (bounded retry with exponential backoff) -/

/-- Configuration of a `RetryPattern` instance (the stats counters are
derived from a run's attempt count and outcome and are not needed by the
claims, so they are not carried in the state). -/
structure RetryPattern where
  maxRetries : Nat
  delay : Nat
  backoffMultiplier : Nat
  maxDelay : Nat
deriving DecidableEq

/-- Constructor options of `RetryPattern` (all optional). -/
structure RetryOptions where
  maxRetries : Option Nat := none
  delay : Option Nat := none
  backoffMultiplier : Option Nat := none
  maxDelay : Option Nat := none

/-- `new RetryPattern(options)`: defaults `maxRetries = 3`, `delay = 1000`,
`backoffMultiplier = 2`, `maxDelay = 10000`. -/
def mkRetryPattern (o : RetryOptions) : RetryPattern :=
  { maxRetries := jsOrNat o.maxRetries 3
    delay := jsOrNat o.delay 1000
    backoffMultiplier := jsOrNat o.backoffMultiplier 2
    maxDelay := jsOrNat o.maxDelay 10000 }

/-- `true` exactly on `Except.error`. -/
def isError {E A : Type} : Except E A → Bool
  | Except.error _ => true
  | Except.ok _ => false

/-- One run of `execute(fn)`: the final result, the number of times the
operation was invoked, and the list of backoff delays slept (in order). -/
structure RetryRun (E A : Type) where
  result : Except E A
  invocations : Nat
  delays : List Nat

/-- The attempt loop of `execute`: `attempt` is the 1-indexed attempt
number, `remaining` the number of retries still allowed after this
attempt (`maxRetries + 1 - attempt`), `currentDelay` the backoff delay
that would be slept before the next attempt. On failure with no retries
left the last error is re-raised; otherwise `currentDelay` is slept and
then updated to `min(currentDelay * backoffMultiplier, maxDelay)`. -/
def retryGo {E A : Type} (op : Nat → Except E A) (mult maxDelay : Nat) :
    Nat → Nat → Nat → RetryRun E A
  | attempt, 0, _ =>
    match op attempt with
    | Except.ok a => ⟨Except.ok a, 1, []⟩
    | Except.error e => ⟨Except.error e, 1, []⟩
  | attempt, r + 1, currentDelay =>
    match op attempt with
    | Except.ok a => ⟨Except.ok a, 1, []⟩
    | Except.error _ =>
      let rest := retryGo op mult maxDelay (attempt + 1) r (min (currentDelay * mult) maxDelay)
      ⟨rest.result, rest.invocations + 1, currentDelay :: rest.delays⟩

/-- `execute(fn)`: run the attempt loop from attempt 1 with
`currentDelay = delay` and `maxRetries` retries allowed. The operation is
modelled as a function from the attempt number to that invocation's
outcome. -/
def RetryPattern.execute {E A : Type} (rp : RetryPattern) (op : Nat → Except E A) : RetryRun E A :=
  retryGo op rp.backoffMultiplier rp.maxDelay 1 rp.maxRetries rp.delay

/-! ## Bulkhead (concurrency isolation with bounded queue)

The bulkhead runs under JS single-threaded cooperative scheduling: each
of its synchronous code sections (the admission logic of `execute`, the
`finally` block of `executeWithSlot` together with the `releaseSlot` it
calls, and a queued entry's timer callback) executes atomically within
one scheduling turn. The model makes each such section one step of a
state machine; a run is an arbitrary interleaving of steps. Queued
requests are identified by a fresh id (`nextId`), standing for the JS
object identity that `indexOf` uses. -/

/-- The `stats` record of `Bulkhead`. -/
structure BHStats where
  totalRequests : Nat
  successfulRequests : Nat
  rejectedRequests : Nat
  queuedRequests : Nat
  maxConcurrentReached : Nat
deriving DecidableEq

/-- State of a `Bulkhead` instance. -/
structure Bulkhead where
  name : String
  maxConcurrent : Nat
  maxWait : Nat
  queueSize : Nat
  currentConcurrent : Nat
  queue : List Nat
  nextId : Nat
  stats : BHStats
deriving DecidableEq

/-- Constructor options of `Bulkhead` (all optional). -/
structure BHOptions where
  name : Option String := none
  maxConcurrent : Option Nat := none
  maxWait : Option Nat := none
  queueSize : Option Nat := none

/-- `new Bulkhead(options)`: defaults `name = "default"`,
`maxConcurrent = 10`, `maxWait = 5000`, `queueSize = 20`. -/
def mkBulkhead (o : BHOptions) : Bulkhead :=
  { name := jsOrStr o.name "default"
    maxConcurrent := jsOrNat o.maxConcurrent 10
    maxWait := jsOrNat o.maxWait 5000
    queueSize := jsOrNat o.queueSize 20
    currentConcurrent := 0
    queue := []
    nextId := 0
    stats := ⟨0, 0, 0, 0, 0⟩ }

/-- What happened to a call at one bulkhead step. -/
inductive BHOutput
  | startedImmediately (id : Nat)
  | enqueued (id : Nat)
  | rejectedFull (id : Nat)
  | grantedFromQueue (id : Nat)
  | timedOut (id : Nat)
deriving DecidableEq

/-- The synchronous prefix of `executeWithSlot`: take a slot and track the
`maxConcurrentReached` stat. -/
def Bulkhead.acquireSlot (b : Bulkhead) : Bulkhead :=
  let b1 := { b with currentConcurrent := b.currentConcurrent + 1 }
  if b1.currentConcurrent = b1.maxConcurrent then
    { b1 with stats := { b1.stats with maxConcurrentReached := b1.stats.maxConcurrentReached + 1 } }
  else b1

/-- The admission logic of `execute`: grant a slot immediately if one is
free; otherwise reject with `BULKHEAD_FULL` if the queue is at capacity;
otherwise enqueue the call. -/
def Bulkhead.arrive (b : Bulkhead) : Bulkhead × BHOutput :=
  let id := b.nextId
  let b1 := { b with
    nextId := b.nextId + 1
    stats := { b.stats with totalRequests := b.stats.totalRequests + 1 } }
  if b1.currentConcurrent < b1.maxConcurrent then
    (b1.acquireSlot, BHOutput.startedImmediately id)
  else if b1.queueSize ≤ b1.queue.length then
    ({ b1 with stats := { b1.stats with rejectedRequests := b1.stats.rejectedRequests + 1 } },
      BHOutput.rejectedFull id)
  else
    ({ b1 with
      queue := b1.queue ++ [id]
      stats := { b1.stats with queuedRequests := b1.stats.queuedRequests + 1 } },
      BHOutput.enqueued id)

/-- `releaseSlot()`: if a call is queued and a slot is free, dequeue the
head (cancelling its timer) and grant it the slot. -/
def Bulkhead.releaseSlot (b : Bulkhead) : Bulkhead × Option BHOutput :=
  match b.queue with
  | [] => (b, none)
  | hd :: tl =>
    if b.currentConcurrent < b.maxConcurrent then
      ({ b with queue := tl }.acquireSlot, some (BHOutput.grantedFromQueue hd))
    else (b, none)

/-- The `finally` block of `executeWithSlot` (with the preceding success
stat): a running operation finishes, releases its slot, and the freed
slot may admit the queue head. -/
def Bulkhead.complete (b : Bulkhead) (success : Bool) : Bulkhead × Option BHOutput :=
  let b1 := if success then
    { b with stats := { b.stats with successfulRequests := b.stats.successfulRequests + 1 } }
  else b
  Bulkhead.releaseSlot { b1 with currentConcurrent := b1.currentConcurrent - 1 }

/-- The deadline-timer callback of a queued entry: if the entry is still
queued, remove it and fail it with `BULKHEAD_TIMEOUT`; otherwise (the
entry was already granted and its timer cleared) do nothing. -/
def Bulkhead.timerFire (b : Bulkhead) (i : Nat) : Bulkhead × Option BHOutput :=
  if i ∈ b.queue then
    ({ b with
      queue := b.queue.erase i
      stats := { b.stats with rejectedRequests := b.stats.rejectedRequests + 1 } },
      some (BHOutput.timedOut i))
  else (b, none)

/-- The atomic scheduling turns of the bulkhead. A `complete` event stands
for the completion of an operation that holds a slot. -/
inductive BHEvent
  | arrive
  | complete (success : Bool)
  | timerFire (id : Nat)
deriving DecidableEq

/-- One scheduling turn. -/
def stepBH (b : Bulkhead) : BHEvent → Bulkhead × List BHOutput
  | BHEvent.arrive =>
    let r := b.arrive
    (r.1, [r.2])
  | BHEvent.complete s =>
    let r := b.complete s
    (r.1, r.2.toList)
  | BHEvent.timerFire i =>
    let r := b.timerFire i
    (r.1, r.2.toList)

/-- Run a sequence of scheduling turns, collecting the outputs in order. -/
def runBH : Bulkhead → List BHEvent → Bulkhead × List BHOutput
  | b, [] => (b, [])
  | b, e :: es =>
    let r := stepBH b e
    let rest := runBH r.1 es
    (rest.1, r.2 ++ rest.2)

/-- The resolutions of queued entry `i` in an output trace: it timed out,
or it was granted a slot on release. -/
def queuedResolutions (i : Nat) (outs : List BHOutput) : Nat :=
  outs.countP (fun o => o == BHOutput.timedOut i || o == BHOutput.grantedFromQueue i)

/-! ## Circuit breaker lemmas -/

lemma execute_fail_closed (cb : CircuitBreaker) (t : Int) (h : cb.state = CBState.CLOSED) :
    (cb.execute t false).invoked = true ∧
    (cb.execute t false).outcome = CBOutcome.downstream ∧
    (cb.execute t false).cb.state =
      (if cb.failureThreshold ≤ cb.failureCount + 1 then CBState.OPEN else CBState.CLOSED) ∧
    (cb.execute t false).cb.failureCount = cb.failureCount + 1 ∧
    (cb.execute t false).cb.lastFailureTime = t ∧
    (cb.execute t false).cb.failureThreshold = cb.failureThreshold ∧
    (cb.execute t false).cb.resetTimeout = cb.resetTimeout ∧
    (cb.execute t false).cb.halfOpenRequests = cb.halfOpenRequests := by
  simp only [CircuitBreaker.execute, CircuitBreaker.evaluateState, CircuitBreaker.onFailure,
    CircuitBreaker.changeState, h]
  by_cases hc : cb.failureThreshold ≤ cb.failureCount + 1 <;> simp [hc]

lemma execute_open_reject (cb : CircuitBreaker) (t : Int) (b : Bool)
    (hs : cb.state = CBState.OPEN) (ht : t - cb.lastFailureTime < cb.resetTimeout) :
    (cb.execute t b).outcome = CBOutcome.circuitOpen ∧
    (cb.execute t b).invoked = false ∧
    (cb.execute t b).cb.state = CBState.OPEN ∧
    (cb.execute t b).cb.lastFailureTime = cb.lastFailureTime ∧
    (cb.execute t b).cb.resetTimeout = cb.resetTimeout := by
  have hnot : ¬ cb.resetTimeout ≤ t - cb.lastFailureTime := by omega
  simp [CircuitBreaker.execute, CircuitBreaker.evaluateState, hs, hnot]

lemma failRun_append (xs ys : List Int) :
    ∀ cb : CircuitBreaker, failRun cb (xs ++ ys) = failRun (failRun cb xs) ys := by
  induction xs with
  | nil => intro cb; simp [failRun]
  | cons x xs ih => intro cb; simp [failRun, ih]

lemma failRun_below_threshold (ts : List Int) :
    ∀ cb : CircuitBreaker, cb.state = CBState.CLOSED →
    cb.failureCount + ts.length < cb.failureThreshold →
    (failRun cb ts).state = CBState.CLOSED ∧
    (failRun cb ts).failureCount = cb.failureCount + ts.length ∧
    (failRun cb ts).failureThreshold = cb.failureThreshold ∧
    (failRun cb ts).resetTimeout = cb.resetTimeout ∧
    (failRun cb ts).halfOpenRequests = cb.halfOpenRequests := by
  induction ts with
  | nil => intro cb h hlt; simp [failRun, h]
  | cons t ts ih =>
    intro cb h hlt
    have step := execute_fail_closed cb t h
    have hnot : ¬ cb.failureThreshold ≤ cb.failureCount + 1 := by
      simp only [List.length_cons] at hlt; omega
    have hstate : (cb.execute t false).cb.state = CBState.CLOSED := by
      rw [step.2.2.1, if_neg hnot]
    have hrec := ih (cb.execute t false).cb hstate (by
      rw [step.2.2.2.1, step.2.2.2.2.2.1]
      simp only [List.length_cons] at hlt
      omega)
    simp only [failRun]
    refine ⟨hrec.1, ?_, ?_, ?_, ?_⟩
    · rw [hrec.2.1, step.2.2.2.1]; simp; omega
    · rw [hrec.2.2.1, step.2.2.2.2.2.1]
    · rw [hrec.2.2.2.1, step.2.2.2.2.2.2.1]
    · rw [hrec.2.2.2.2, step.2.2.2.2.2.2.2]

lemma exists_append_singleton_of_getLast? :
    ∀ (l : List Int) (a : Int), l.getLast? = some a → ∃ l₁, l = l₁ ++ [a] := by
  intro l
  induction l with
  | nil => intro a h; simp at h
  | cons x xs ih =>
    intro a h
    cases xs with
    | nil =>
      simp [List.getLast?] at h
      exact ⟨[], by simp [h]⟩
    | cons y ys =>
      rw [List.getLast?_cons_cons] at h
      obtain ⟨l₁, hl⟩ := ih a h
      exact ⟨x :: l₁, by simp [hl]⟩

/-! ## Claim theorems -/

/-- C1: for a CircuitBreaker with failure threshold `f`, starting in
`CLOSED` with a zero failure count, `f` consecutive failing calls through
`execute` transition the state to `OPEN` (with `lastFailureTime` the time
of the last failing call), and every call to `execute` while the state is
`OPEN` with less than `resetTimeout` elapsed since the last failure is
rejected with `CIRCUIT_OPEN` without invoking the supplied operation,
leaving the breaker `OPEN` with `lastFailureTime` unchanged. -/
theorem circuitBreaker_opens_then_fails_fast
    (cb : CircuitBreaker) (ts : List Int) (tl : Int)
    (hstate : cb.state = CBState.CLOSED)
    (hcount : cb.failureCount = 0)
    (hlen : ts.length = cb.failureThreshold)
    (hlast : ts.getLast? = some tl) :
    ((failRun cb ts).state = CBState.OPEN ∧ (failRun cb ts).lastFailureTime = tl) ∧
    (∀ c : CircuitBreaker, c.state = CBState.OPEN →
      ∀ (t : Int) (b : Bool), t - c.lastFailureTime < c.resetTimeout →
        (c.execute t b).outcome = CBOutcome.circuitOpen ∧
        (c.execute t b).invoked = false ∧
        (c.execute t b).cb.state = CBState.OPEN ∧
        (c.execute t b).cb.lastFailureTime = c.lastFailureTime) := by
  constructor
  · obtain ⟨ts₁, rfl⟩ := exists_append_singleton_of_getLast? ts tl hlast
    have hlen₁ : ts₁.length + 1 = cb.failureThreshold := by
      simpa using hlen
    have hbelow := failRun_below_threshold ts₁ cb hstate (by omega)
    rw [failRun_append]
    have hstep := execute_fail_closed (failRun cb ts₁) tl hbelow.1
    have hthr : (failRun cb ts₁).failureThreshold ≤ (failRun cb ts₁).failureCount + 1 := by
      rw [hbelow.2.1, hbelow.2.2.1]; omega
    simp only [failRun]
    exact ⟨by rw [hstep.2.2.1, if_pos hthr], hstep.2.2.2.2.1⟩
  · intro c hc t b ht
    have h := execute_open_reject c t b hc ht
    exact ⟨h.1, h.2.1, h.2.2.1, h.2.2.2.1⟩

/-- C1 witness: a default-configured breaker (threshold 5) opens after the
five failing calls at times 0..4. -/
theorem circuitBreaker_opens_then_fails_fast_witness :
    (failRun (mkCircuitBreaker {}) [0, 1, 2, 3, 4]).state = CBState.OPEN :=
  (circuitBreaker_opens_then_fails_fast (mkCircuitBreaker {}) [0, 1, 2, 3, 4] 4
    rfl rfl (by decide) (by decide)).1.1

/-- A breaker that opens after a single failure, re-probes after 10 ms,
and needs 3 half-open successes to close: the configuration used to
exhibit the half-open counter behaviour. -/
def cbProbe : CircuitBreaker :=
  mkCircuitBreaker { failureThreshold := some 1, resetTimeout := some 10, halfOpenRequests := some 3 }

/-- C2 (code bug): the `OPEN → HALF_OPEN` transition zeroes only
`halfOpenAttempts`, not `successCount` — the counter the closing decision
reads. Concretely for `cbProbe` (`halfOpenRequests = 3`): a failure at
t=0 opens the circuit; successes at t=10 and t=11 run in `HALF_OPEN`
(`successCount = 2`); a failure at t=12 re-opens it, with
`successCount` still 2; at t=22 the breaker re-enters `HALF_OPEN` with
`successCount` still 2 (only `halfOpenAttempts` was reset), so a single
success — not 3 — closes the circuit. -/
theorem circuitBreaker_halfOpen_success_counter_persists :
    (runCB cbProbe [(0, false), (10, true), (11, true), (12, false)]).state = CBState.OPEN ∧
    (runCB cbProbe [(0, false), (10, true), (11, true), (12, false)]).successCount = 2 ∧
    ((runCB cbProbe [(0, false), (10, true), (11, true), (12, false)]).evaluateState 22).state
      = CBState.HALF_OPEN ∧
    ((runCB cbProbe [(0, false), (10, true), (11, true), (12, false)]).evaluateState 22).halfOpenAttempts
      = 0 ∧
    ((runCB cbProbe [(0, false), (10, true), (11, true), (12, false)]).evaluateState 22).successCount
      = 2 ∧
    ((runCB cbProbe [(0, false), (10, true), (11, true), (12, false)]).execute 22 true).cb.state
      = CBState.CLOSED := by
  decide

/-- C5 counterexample: a reachable breaker state in which both the
consecutive-failure counter and the half-open success counter are
non-zero — a failure at t=0 opens `cbProbe` (`failureCount = 1`), and a
success at t=10 runs in `HALF_OPEN` (`successCount = 1`) while
`failureCount` is still 1, since `changeState` resets no counters. -/
theorem circuitBreaker_counters_both_nonzero :
    ¬((runCB cbProbe [(0, false), (10, true)]).failureCount = 0 ∨
      (runCB cbProbe [(0, false), (10, true)]).successCount = 0) := by
  decide

/-- The invariant that does hold of the circuit breaker: whenever the
state is `CLOSED`, the half-open success counter is zero. -/
def cbClosedInv (cb : CircuitBreaker) : Prop :=
  cb.state = CBState.CLOSED → cb.successCount = 0

lemma evaluateState_of_closed_result (cb : CircuitBreaker) (now : Int)
    (h : (cb.evaluateState now).state = CBState.CLOSED) :
    cb.evaluateState now = cb ∧ cb.state = CBState.CLOSED := by
  by_cases h1 : cb.state = CBState.OPEN
  · exfalso
    unfold CircuitBreaker.evaluateState at h
    rw [if_pos h1] at h
    by_cases h2 : cb.resetTimeout ≤ now - cb.lastFailureTime
    · rw [if_pos h2] at h
      simp [CircuitBreaker.changeState] at h
    · rw [if_neg h2] at h
      rw [h1] at h
      cases h
  · have heq : cb.evaluateState now = cb := by
      unfold CircuitBreaker.evaluateState
      rw [if_neg h1]
    rw [heq] at h
    exact ⟨heq, h⟩

lemma inv_evaluateState (cb : CircuitBreaker) (now : Int) (h : cbClosedInv cb) :
    cbClosedInv (cb.evaluateState now) := by
  intro hc
  obtain ⟨heq, hcl⟩ := evaluateState_of_closed_result cb now hc
  rw [heq]
  exact h hcl

lemma inv_onSuccess (cb : CircuitBreaker) (h : cbClosedInv cb) :
    cbClosedInv cb.onSuccess := by
  unfold CircuitBreaker.onSuccess
  by_cases h1 : cb.state = CBState.HALF_OPEN
  · simp only [h1, if_pos]
    by_cases h2 : cb.halfOpenRequests ≤ cb.successCount + 1 <;>
      simp [h2, CircuitBreaker.changeState, CircuitBreaker.resetCounts, cbClosedInv, h1]
  · simp only [h1, if_neg, if_false]
    intro hc
    exact h hc

lemma inv_onFailure (cb : CircuitBreaker) (now : Int) (h : cbClosedInv cb) :
    cbClosedInv (cb.onFailure now) := by
  unfold CircuitBreaker.onFailure
  by_cases h1 : cb.state = CBState.HALF_OPEN
  · simp [h1, CircuitBreaker.changeState, cbClosedInv]
  · by_cases h2 : cb.failureThreshold ≤ cb.failureCount + 1
    · simp [h1, h2, CircuitBreaker.changeState, cbClosedInv]
    · simp only [cbClosedInv]
      simp [h1, h2]
      intro hc
      exact h hc

lemma inv_execute (cb : CircuitBreaker) (t : Int) (b : Bool) (h : cbClosedInv cb) :
    cbClosedInv (cb.execute t b).cb := by
  have h1 : cbClosedInv
      { cb with stats := { cb.stats with totalRequests := cb.stats.totalRequests + 1 } } := h
  have h2 := inv_evaluateState _ t h1
  simp only [CircuitBreaker.execute]
  split
  · rename_i hOpen
    intro hc
    simp only at hc
    rw [hOpen] at hc
    cases hc
  · split
    · exact fun hc => inv_onSuccess _ h2 hc
    · exact fun hc => inv_onFailure _ t h2 hc

/-- C5 amended: the two counters are reset together only by
`resetCounts` — on the `HALF_OPEN → CLOSED` transition and on explicit
reset — not on every state transition, so in `OPEN` and `HALF_OPEN` both
may be non-zero; what does hold in every reachable state is that the
half-open success counter is zero whenever the breaker is `CLOSED`: the
invariant holds of every constructed breaker and is preserved by
`execute` and by `reset`. -/
theorem circuitBreaker_closed_success_counter_zero :
    (∀ o : CBOptions, cbClosedInv (mkCircuitBreaker o)) ∧
    (∀ (cb : CircuitBreaker) (t : Int) (b : Bool), cbClosedInv cb →
      cbClosedInv (cb.execute t b).cb) ∧
    (∀ cb : CircuitBreaker, cbClosedInv cb → cbClosedInv cb.reset) := by
  refine ⟨?_, ?_, ?_⟩
  · intro o _
    rfl
  · intro cb t b h
    exact inv_execute cb t b h
  · intro cb _ _
    rfl

/-- C5 witness: the invariant applied to the breaker reached by one
failing call on a default breaker. -/
theorem circuitBreaker_closed_success_counter_zero_witness :
    ((mkCircuitBreaker {}).execute 0 false).cb.successCount = 0 :=
  circuitBreaker_closed_success_counter_zero.2.1 (mkCircuitBreaker {}) 0 false
    (circuitBreaker_closed_success_counter_zero.1 {}) (by decide)

/-! ## Retry lemmas -/

/-- The backoff delays recorded by a run of `r` consecutive failures
starting from current delay `d`. -/
def delaySeq (mult maxDelay : Nat) : Nat → Nat → List Nat
  | _, 0 => []
  | d, r + 1 => d :: delaySeq mult maxDelay (min (d * mult) maxDelay) r

/-- The current delay after `k` backoff updates from `d`. -/
def iterDelay (mult maxDelay : Nat) : Nat → Nat → Nat
  | d, 0 => d
  | d, k + 1 => iterDelay mult maxDelay (min (d * mult) maxDelay) k

lemma retryGo_allFail {E A : Type} (op : Nat → Except E A) (mult maxDelay : Nat) :
    ∀ (r a d : Nat), (∀ k, a ≤ k → k ≤ a + r → isError (op k) = true) →
    retryGo op mult maxDelay a r d = ⟨op (a + r), r + 1, delaySeq mult maxDelay d r⟩ := by
  intro r
  induction r with
  | zero =>
    intro a d hf
    have ha := hf a (le_refl a) (by omega)
    cases hop : op a with
    | ok x => rw [hop] at ha; simp [isError] at ha
    | error e => simp [retryGo, hop, delaySeq]
  | succ r ih =>
    intro a d hf
    have ha := hf a (le_refl a) (by omega)
    cases hop : op a with
    | ok x => rw [hop] at ha; simp [isError] at ha
    | error e =>
      simp only [retryGo, hop]
      rw [ih (a + 1) (min (d * mult) maxDelay)
        (fun k hk1 hk2 => hf k (by omega) (by omega))]
      have h2 : a + 1 + r = a + (r + 1) := by omega
      simp [delaySeq, h2]

lemma retryGo_firstSuccess {E A : Type} (op : Nat → Except E A) (mult maxDelay : Nat) (x : A) :
    ∀ (j a r d : Nat), j ≤ r → op (a + j) = Except.ok x →
    (∀ k, a ≤ k → k < a + j → isError (op k) = true) →
    retryGo op mult maxDelay a r d = ⟨Except.ok x, j + 1, delaySeq mult maxDelay d j⟩ := by
  intro j
  induction j with
  | zero =>
    intro a r d _ hok _
    simp only [Nat.add_zero] at hok
    cases r with
    | zero => simp [retryGo, hok, delaySeq]
    | succ r => simp [retryGo, hok, delaySeq]
  | succ j ih =>
    intro a r d hjr hok hf
    have ha := hf a (le_refl a) (by omega)
    cases hop : op a with
    | ok y => rw [hop] at ha; simp [isError] at ha
    | error e =>
      cases r with
      | zero => omega
      | succ r =>
        simp only [retryGo, hop]
        rw [ih (a + 1) r (min (d * mult) maxDelay) (by omega)
          (by rw [show a + 1 + j = a + (j + 1) by omega]; exact hok)
          (fun k hk1 hk2 => hf k (by omega) (by omega))]
        simp [delaySeq]

lemma retryGo_delays_get {E A : Type} (op : Nat → Except E A) (mult maxDelay : Nat) :
    ∀ (n : Nat) (a r d : Nat), 1 ≤ n → n ≤ r →
    (∀ k, a ≤ k → k < a + n → isError (op k) = true) →
    (retryGo op mult maxDelay a r d).delays.get? (n - 1) =
      some (iterDelay mult maxDelay d (n - 1)) := by
  intro n
  induction n with
  | zero => omega
  | succ n ih =>
    intro a r d _ hnr hf
    have ha := hf a (le_refl a) (by omega)
    cases hop : op a with
    | ok y => rw [hop] at ha; simp [isError] at ha
    | error e =>
      cases r with
      | zero => omega
      | succ r =>
        simp only [retryGo, hop]
        cases n with
        | zero => simp [iterDelay]
        | succ m =>
          have hrec := ih (a + 1) r (min (d * mult) maxDelay) (by omega) (by omega)
            (fun k hk1 hk2 => hf k (by omega) (by omega))
          simp only [Nat.succ_sub_one] at hrec ⊢
          simpa [iterDelay] using hrec

lemma iterDelay_closed (mult maxDelay : Nat) (hm : 1 ≤ mult) :
    ∀ (k d : Nat), d ≤ maxDelay →
    iterDelay mult maxDelay d k = min (d * mult ^ k) maxDelay := by
  intro k
  induction k with
  | zero =>
    intro d hd
    simp [iterDelay, Nat.min_eq_left hd]
  | succ k ih =>
    intro d hd
    have hstep : iterDelay mult maxDelay d (k + 1)
        = iterDelay mult maxDelay (min (d * mult) maxDelay) k := rfl
    rw [hstep, ih (min (d * mult) maxDelay) (Nat.min_le_right _ _)]
    rcases le_or_lt (d * mult) maxDelay with h | h
    · rw [Nat.min_eq_left h, pow_succ]
      congr 1
      ring
    · rw [Nat.min_eq_right (Nat.le_of_lt h)]
      have h1 : maxDelay ≤ maxDelay * mult ^ k :=
        Nat.le_mul_of_pos_right maxDelay (Nat.pos_pow_of_pos k (by omega))
      have h2 : maxDelay ≤ d * mult ^ (k + 1) := by
        calc maxDelay ≤ maxDelay * mult ^ k := h1
          _ ≤ (d * mult) * mult ^ k := Nat.mul_le_mul_right _ (Nat.le_of_lt h)
          _ = d * mult ^ (k + 1) := by rw [pow_succ]; ring
      rw [Nat.min_eq_right h1, Nat.min_eq_right h2]

/-- The always-failing downstream operation. -/
def opAlwaysFail : Nat → Except Nat Unit := fun _ => Except.error 0

/-- C3: for every RetryPattern and operation, (i) if every one of the
`maxRetries + 1` allowed invocations fails, `execute` invokes the
operation exactly `maxRetries + 1` times and its result is the error of
the final invocation itself; (ii) if invocation `n` succeeds after `n-1`
failures, `execute` returns that result having invoked the operation
exactly `n` times. -/
theorem retry_exhausts_then_rethrows {E A : Type} (rp : RetryPattern) (op : Nat → Except E A) :
    ((∀ k, 1 ≤ k → k ≤ rp.maxRetries + 1 → isError (op k) = true) →
      (rp.execute op).result = op (rp.maxRetries + 1) ∧
      (rp.execute op).invocations = rp.maxRetries + 1) ∧
    (∀ (n : Nat) (x : A), 1 ≤ n → n ≤ rp.maxRetries + 1 → op n = Except.ok x →
      (∀ k, 1 ≤ k → k < n → isError (op k) = true) →
      (rp.execute op).result = Except.ok x ∧ (rp.execute op).invocations = n) := by
  constructor
  · intro hf
    have h := retryGo_allFail op rp.backoffMultiplier rp.maxDelay rp.maxRetries 1 rp.delay
      (fun k hk1 hk2 => hf k hk1 (by omega))
    unfold RetryPattern.execute
    rw [h]
    have : 1 + rp.maxRetries = rp.maxRetries + 1 := by omega
    simp [this]
  · intro n x hn1 hn2 hok hf
    have h := retryGo_firstSuccess op rp.backoffMultiplier rp.maxDelay x (n - 1) 1
      rp.maxRetries rp.delay (by omega)
      (by rw [show 1 + (n - 1) = n by omega]; exact hok)
      (fun k hk1 hk2 => hf k hk1 (by omega))
    unfold RetryPattern.execute
    rw [h]
    exact ⟨rfl, by simp; omega⟩

/-- C3 witness: the default policy (`maxRetries = 3`) invokes an
always-failing operation exactly 4 times. -/
theorem retry_exhausts_then_rethrows_witness :
    ((mkRetryPattern {}).execute opAlwaysFail).invocations = 4 :=
  ((retry_exhausts_then_rethrows (mkRetryPattern {}) opAlwaysFail).1
    (fun _ _ _ => rfl)).2

/-- The policy exhibiting the uncapped first delay: `initialDelay = 20000`
exceeds `maxDelay = 10000`. -/
def rpUncapped : RetryPattern :=
  mkRetryPattern
    { maxRetries := some 1
      delay := some 20000
      backoffMultiplier := some 2
      maxDelay := some 10000 }

/-- C7 counterexample: for `rpUncapped`, the delay slept before retry
attempt 2 is the uncapped `initialDelay = 20000`, not
`min(initialDelay * backoffMultiplier ^ 0, maxDelay) = 10000` as the
claim's closed form requires. -/
theorem retry_first_delay_uncapped :
    (rpUncapped.execute opAlwaysFail).delays.get? 0 = some 20000 ∧
    ¬((rpUncapped.execute opAlwaysFail).delays.get? 0 =
      some (min (rpUncapped.delay * rpUncapped.backoffMultiplier ^ 0) rpUncapped.maxDelay)) := by
  constructor
  · rfl
  · decide

/-- C7 amended: the delay slept before retry attempt `n + 1` is
`d n`, where `d 1 = initialDelay` and `d (k+1) = min(d k *
backoffMultiplier, maxDelay)`; provided `initialDelay ≤ maxDelay` (and
`backoffMultiplier ≥ 1`) this equals
`min(initialDelay * backoffMultiplier ^ (n-1), maxDelay)`, as the claim
states. The first delay is `initialDelay` uncapped, so the closed form
needs `initialDelay ≤ maxDelay`. -/
theorem retry_backoff_delay_formula {E A : Type} (rp : RetryPattern) (op : Nat → Except E A)
    (n : Nat) (hm : 1 ≤ rp.backoffMultiplier) (hd : rp.delay ≤ rp.maxDelay)
    (h1 : 1 ≤ n) (h2 : n ≤ rp.maxRetries)
    (hfail : ∀ k, 1 ≤ k → k ≤ n → isError (op k) = true) :
    (rp.execute op).delays.get? (n - 1) =
      some (min (rp.delay * rp.backoffMultiplier ^ (n - 1)) rp.maxDelay) := by
  unfold RetryPattern.execute
  rw [retryGo_delays_get op rp.backoffMultiplier rp.maxDelay n 1 rp.maxRetries rp.delay h1 h2
    (fun k hk1 hk2 => hfail k hk1 (by omega))]
  rw [iterDelay_closed rp.backoffMultiplier rp.maxDelay hm (n - 1) rp.delay hd]

/-- C7 witness: for the default policy, the delay before attempt 3 is
`min(1000 * 2, 10000) = 2000`. -/
theorem retry_backoff_delay_formula_witness :
    ((mkRetryPattern {}).execute opAlwaysFail).delays.get? 1 = some 2000 := by
  have h := retry_backoff_delay_formula (mkRetryPattern {}) opAlwaysFail 2
    (by decide) (by decide) (by decide) (by decide) (fun _ _ _ => rfl)
  simpa using h

/-! ## Rate limiter lemmas -/

lemma tryAcquire_eq (rl : RateLimiter) (now : Int) :
    rl.tryAcquire now =
      (let pruned := rl.requests.filter (fun t => decide (now - rl.windowMs < t))
       if rl.maxRequests ≤ pruned.length then
         (false,
          { maxRequests := rl.maxRequests
            windowMs := rl.windowMs
            requests := pruned
            stats := ⟨rl.stats.totalRequests + 1, rl.stats.allowedRequests,
              rl.stats.rejectedRequests + 1⟩ })
       else
         (true,
          { maxRequests := rl.maxRequests
            windowMs := rl.windowMs
            requests := pruned ++ [now]
            stats := ⟨rl.stats.totalRequests + 1, rl.stats.allowedRequests + 1,
              rl.stats.rejectedRequests⟩ })) := rfl

lemma tryAcquire_admit (rl : RateLimiter) (now : Int)
    (hkeep : ∀ o ∈ rl.requests, now - rl.windowMs < o)
    (hlen : rl.requests.length < rl.maxRequests) :
    (rl.tryAcquire now).1 = true ∧
    (rl.tryAcquire now).2.requests = rl.requests ++ [now] ∧
    (rl.tryAcquire now).2.maxRequests = rl.maxRequests ∧
    (rl.tryAcquire now).2.windowMs = rl.windowMs := by
  have hfilter : rl.requests.filter (fun t => decide (now - rl.windowMs < t)) = rl.requests :=
    List.filter_eq_self.mpr (fun a ha => decide_eq_true (hkeep a ha))
  rw [tryAcquire_eq]
  simp only [hfilter]
  rw [if_neg (by omega : ¬ rl.maxRequests ≤ rl.requests.length)]
  exact ⟨rfl, rfl, rfl, rfl⟩

lemma runTA_all_admitted : ∀ (ts : List Int) (rl : RateLimiter),
    rl.requests.length + ts.length ≤ rl.maxRequests →
    (∀ o ∈ rl.requests, ∀ t ∈ ts, t - rl.windowMs < o) →
    (∀ t1 t2, t1 ∈ ts → t2 ∈ ts → t1 - rl.windowMs < t2) →
    (runTA rl ts).1 = List.replicate ts.length true ∧
    (runTA rl ts).2.requests = rl.requests ++ ts ∧
    (runTA rl ts).2.maxRequests = rl.maxRequests ∧
    (runTA rl ts).2.windowMs = rl.windowMs := by
  intro ts
  induction ts with
  | nil => intro rl _ _ _; simp [runTA]
  | cons t ts ih =>
    intro rl hlen h2 h3
    have hstep := tryAcquire_admit rl t
      (fun o ho => h2 o ho t (by simp))
      (by simp at hlen; omega)
    have hrec := ih (rl.tryAcquire t).2
      (by rw [hstep.2.1, hstep.2.2.1]; simp at hlen ⊢; omega)
      (by
        rw [hstep.2.1, hstep.2.2.2]
        intro o ho t2 ht2
        rcases List.mem_append.mp ho with h | h
        · exact h2 o h t2 (by simp [ht2])
        · simp at h
          subst h
          exact h3 t2 o (by simp [ht2]) (by simp))
      (by
        rw [hstep.2.2.2]
        intro t1 t2 h1m h2m
        exact h3 t1 t2 (by simp [h1m]) (by simp [h2m]))
    simp only [runTA]
    refine ⟨?_, ?_, hrec.2.2.1.trans hstep.2.2.1, hrec.2.2.2.trans hstep.2.2.2⟩
    · rw [hstep.1, hrec.1]
      simp [List.replicate_succ]
    · rw [hrec.2.1, hstep.2.1]
      simp

/-- C4: the per-call contract of `tryAcquire` — prune every recorded
timestamp not strictly inside the trailing window, then admit (appending
the current time) exactly when the remaining count is strictly below
`maxRequests`, leaving the list unchanged otherwise — and its boundary
consequence for the default limiter (`maxRequests = 10`,
`windowMs = 60000`): ten admissions at times `ts10` within one window,
then an 11th call at `t11` within 60 s of the first admission `t1` is
rejected without recording a timestamp, while any call at `t ≥ t1 +
60000` is admitted again. -/
theorem rateLimiter_sliding_window
    (ts10 : List Int) (t1 t11 : Int)
    (hlen : ts10.length = 10)
    (hhead : ts10.head? = some t1)
    (hlo : ∀ t ∈ ts10, t1 ≤ t)
    (hhi : ∀ t ∈ ts10, t ≤ t11)
    (hwin : t11 < t1 + 60000) :
    (∀ (rl : RateLimiter) (now : Int),
      ((rl.tryAcquire now).1 = true ↔
        (rl.requests.filter (fun t => decide (now - rl.windowMs < t))).length < rl.maxRequests) ∧
      (rl.tryAcquire now).2.requests =
        (if rl.maxRequests ≤ (rl.requests.filter (fun t => decide (now - rl.windowMs < t))).length
         then rl.requests.filter (fun t => decide (now - rl.windowMs < t))
         else rl.requests.filter (fun t => decide (now - rl.windowMs < t)) ++ [now])) ∧
    (runTA (mkRateLimiter {}) ts10).1 = List.replicate 10 true ∧
    ((runTA (mkRateLimiter {}) ts10).2.tryAcquire t11).1 = false ∧
    ((runTA (mkRateLimiter {}) ts10).2.tryAcquire t11).2.requests = ts10 ∧
    (∀ t, t1 + 60000 ≤ t →
      (((runTA (mkRateLimiter {}) ts10).2.tryAcquire t11).2.tryAcquire t).1 = true) := by
  have hrun := runTA_all_admitted ts10 (mkRateLimiter {})
    (by simp [mkRateLimiter, jsOrNat, hlen])
    (by intro o ho; simp [mkRateLimiter] at ho)
    (by
      intro ta tb ha hb
      have h1 := hhi ta ha
      have h2 := hlo tb hb
      simp only [mkRateLimiter, jsOrInt]
      omega)
  have hreq10 : (runTA (mkRateLimiter {}) ts10).2.requests = ts10 := by
    rw [hrun.2.1]; simp [mkRateLimiter]
  have hmax10 : (runTA (mkRateLimiter {}) ts10).2.maxRequests = 10 := by
    rw [hrun.2.2.1]; simp [mkRateLimiter, jsOrNat]
  have hwin10 : (runTA (mkRateLimiter {}) ts10).2.windowMs = 60000 := by
    rw [hrun.2.2.2]; simp [mkRateLimiter, jsOrInt]
  have hkeepall : (runTA (mkRateLimiter {}) ts10).2.requests.filter
      (fun t => decide (t11 - (runTA (mkRateLimiter {}) ts10).2.windowMs < t)) =
      (runTA (mkRateLimiter {}) ts10).2.requests := by
    apply List.filter_eq_self.mpr
    intro a ha
    rw [hreq10] at ha
    rw [hwin10]
    have := hlo a ha
    exact decide_eq_true (by omega)
  have h11 : ((runTA (mkRateLimiter {}) ts10).2.tryAcquire t11).1 = false ∧
      ((runTA (mkRateLimiter {}) ts10).2.tryAcquire t11).2.requests = ts10 ∧
      ((runTA (mkRateLimiter {}) ts10).2.tryAcquire t11).2.maxRequests = 10 ∧
      ((runTA (mkRateLimiter {}) ts10).2.tryAcquire t11).2.windowMs = 60000 := by
    rw [tryAcquire_eq]
    simp only [hkeepall]
    rw [if_pos (by rw [hreq10, hlen, hmax10])]
    exact ⟨rfl, by simp [hreq10], by simp [hmax10], by simp [hwin10]⟩
  refine ⟨?_, by rw [hrun.1, hlen], h11.1, h11.2.1, ?_⟩
  · intro rl now
    rw [tryAcquire_eq]
    by_cases hc : rl.maxRequests ≤
        (rl.requests.filter (fun t => decide (now - rl.windowMs < t))).length
    · simp [hc]
    · simp [hc]
      omega
  · intro t ht
    obtain ⟨rest, hts⟩ : ∃ rest, ts10 = t1 :: rest := by
      cases hcase : ts10 with
      | nil => rw [hcase] at hhead; simp at hhead
      | cons a l =>
        rw [hcase] at hhead
        simp at hhead
        exact ⟨l, by rw [hhead]⟩
    rw [tryAcquire_eq]
    have hfl : (((runTA (mkRateLimiter {}) ts10).2.tryAcquire t11).2.requests.filter
        (fun o => decide (t - ((runTA (mkRateLimiter {}) ts10).2.tryAcquire t11).2.windowMs < o))).length
        ≤ 9 := by
      rw [h11.2.1, h11.2.2.2, hts]
      have hdrop : ¬ (t - (60000 : Int) < t1) := by omega
      simp only [List.filter_cons, decide_eq_true_eq, hdrop, if_false]
      calc (rest.filter (fun o => decide (t - (60000 : Int) < o))).length
          ≤ rest.length := List.length_filter_le _ _
        _ ≤ 9 := by
            have : (t1 :: rest).length = 10 := by rw [← hts, hlen]
            simp at this
            omega
    rw [if_neg (by rw [h11.2.2.1]; omega)]

/-- C4 witness: ten admissions at time 0 on a default limiter, then the
11th call at time 0 is rejected. -/
theorem rateLimiter_sliding_window_witness :
    ((runTA (mkRateLimiter {}) [0, 0, 0, 0, 0, 0, 0, 0, 0, 0]).2.tryAcquire 0).1 = false :=
  (rateLimiter_sliding_window [0, 0, 0, 0, 0, 0, 0, 0, 0, 0] 0 0
    (by decide) (by decide) (by decide) (by decide) (by decide)).2.2.1

/-! ## Reset lemmas -/

/-- A rate limiter that has admitted one request (so `totalRequests = 1`). -/
def rlUsed : RateLimiter := ((mkRateLimiter {}).tryAcquire 0).2

/-- A breaker (threshold 1) opened by one failing call at t = 5. -/
def cbUsed : CircuitBreaker := failRun (mkCircuitBreaker { failureThreshold := some 1 }) [5]

/-- C6 counterexample: `reset` does not clear the components' stats
counters — after one admitted request, `RateLimiter.reset` empties the
timestamp list but leaves `stats.totalRequests = 1`; after a failing
call has opened `cbUsed`, `CircuitBreaker.reset` returns to `CLOSED`
with the three working counters zeroed but leaves
`stats.failedRequests = 1` and `lastFailureTime = 5`. -/
theorem reset_keeps_stats_counters :
    rlUsed.reset.requests = [] ∧
    ¬ rlUsed.reset.stats.totalRequests = 0 ∧
    cbUsed.state = CBState.OPEN ∧
    cbUsed.reset.state = CBState.CLOSED ∧
    cbUsed.reset.failureCount = 0 ∧
    ¬ cbUsed.reset.stats.failedRequests = 0 ∧
    ¬ cbUsed.reset.lastFailureTime = 0 := by
  decide

/-- The decision-relevant relation between two rate limiters: same
configuration and same recorded timestamps (the stats counters never
feed back into admission decisions). -/
def rlRel (r1 r2 : RateLimiter) : Prop :=
  r1.maxRequests = r2.maxRequests ∧ r1.windowMs = r2.windowMs ∧ r1.requests = r2.requests

lemma tryAcquire_rel (r1 r2 : RateLimiter) (now : Int) (h : rlRel r1 r2) :
    (r1.tryAcquire now).1 = (r2.tryAcquire now).1 ∧
    rlRel (r1.tryAcquire now).2 (r2.tryAcquire now).2 := by
  obtain ⟨hm, hw, hr⟩ := h
  rw [tryAcquire_eq, tryAcquire_eq, hm, hw, hr]
  by_cases hc : r2.maxRequests ≤
      (r2.requests.filter (fun t => decide (now - r2.windowMs < t))).length <;>
    simp [hc, rlRel]

lemma runTA_rel : ∀ (ts : List Int) (r1 r2 : RateLimiter), rlRel r1 r2 →
    (runTA r1 ts).1 = (runTA r2 ts).1 := by
  intro ts
  induction ts with
  | nil => intro r1 r2 _; rfl
  | cons t ts ih =>
    intro r1 r2 h
    have hstep := tryAcquire_rel r1 r2 t h
    simp only [runTA]
    rw [hstep.1, ih _ _ hstep.2]

/-- The decision-relevant relation between two circuit breakers: same
configuration, state and counters, and — when `OPEN`, the only state in
which it is read — the same `lastFailureTime` (`halfOpenAttempts` and
the stats are never read by any decision). -/
def cbRel (c1 c2 : CircuitBreaker) : Prop :=
  c1.failureThreshold = c2.failureThreshold ∧
  c1.resetTimeout = c2.resetTimeout ∧
  c1.halfOpenRequests = c2.halfOpenRequests ∧
  c1.state = c2.state ∧
  c1.failureCount = c2.failureCount ∧
  c1.successCount = c2.successCount ∧
  (c1.state = CBState.OPEN → c1.lastFailureTime = c2.lastFailureTime)

lemma evaluateState_rel (c1 c2 : CircuitBreaker) (now : Int) (h : cbRel c1 c2) :
    cbRel (c1.evaluateState now) (c2.evaluateState now) := by
  obtain ⟨hft, hrt, hhr, hst, hfc, hsc, hlf⟩ := h
  unfold CircuitBreaker.evaluateState
  by_cases hs : c1.state = CBState.OPEN
  · have hs2 : c2.state = CBState.OPEN := by rw [← hst]; exact hs
    rw [if_pos hs, if_pos hs2]
    have hlf2 := hlf hs
    by_cases htime : c1.resetTimeout ≤ now - c1.lastFailureTime
    · have htime2 : c2.resetTimeout ≤ now - c2.lastFailureTime := by
        rw [← hrt, ← hlf2]; exact htime
      rw [if_pos htime, if_pos htime2]
      exact ⟨hft, hrt, hhr, by simp [CircuitBreaker.changeState], by simp [CircuitBreaker.changeState, hfc],
        by simp [CircuitBreaker.changeState, hsc], by simp [CircuitBreaker.changeState]⟩
    · have htime2 : ¬ c2.resetTimeout ≤ now - c2.lastFailureTime := by
        rw [← hrt, ← hlf2]; exact htime
      rw [if_neg htime, if_neg htime2]
      exact ⟨hft, hrt, hhr, hst, hfc, hsc, hlf⟩
  · have hs2 : ¬ c2.state = CBState.OPEN := by rw [← hst]; exact hs
    rw [if_neg hs, if_neg hs2]
    exact ⟨hft, hrt, hhr, hst, hfc, hsc, hlf⟩

lemma onSuccess_rel (c1 c2 : CircuitBreaker) (h : cbRel c1 c2) :
    cbRel c1.onSuccess c2.onSuccess := by
  obtain ⟨hft, hrt, hhr, hst, hfc, hsc, hlf⟩ := h
  unfold CircuitBreaker.onSuccess
  by_cases hs : c1.state = CBState.HALF_OPEN
  · have hs2 : c2.state = CBState.HALF_OPEN := by rw [← hst]; exact hs
    rw [if_pos hs, if_pos hs2]
    by_cases hclose : c1.halfOpenRequests ≤ c1.successCount + 1
    · have hclose2 : c2.halfOpenRequests ≤ c2.successCount + 1 := by
        rw [← hhr, ← hsc]; exact hclose
      simp only [hclose, hclose2, if_pos]
      exact ⟨hft, hrt, hhr, by simp [CircuitBreaker.changeState, CircuitBreaker.resetCounts],
        by simp [CircuitBreaker.changeState, CircuitBreaker.resetCounts],
        by simp [CircuitBreaker.changeState, CircuitBreaker.resetCounts],
        by simp [CircuitBreaker.changeState, CircuitBreaker.resetCounts]⟩
    · have hclose2 : ¬ c2.halfOpenRequests ≤ c2.successCount + 1 := by
        rw [← hhr, ← hsc]; exact hclose
      simp only [hclose, hclose2, if_neg, not_false_iff]
      exact ⟨hft, hrt, hhr, hst, hfc, by simp [hsc], fun hopen => hlf hopen⟩
  · have hs2 : ¬ c2.state = CBState.HALF_OPEN := by rw [← hst]; exact hs
    rw [if_neg hs, if_neg hs2]
    exact ⟨hft, hrt, hhr, hst, rfl, hsc, fun hopen => hlf hopen⟩

lemma onFailure_rel (c1 c2 : CircuitBreaker) (now : Int) (h : cbRel c1 c2) :
    cbRel (c1.onFailure now) (c2.onFailure now) := by
  obtain ⟨hft, hrt, hhr, hst, hfc, hsc, hlf⟩ := h
  unfold CircuitBreaker.onFailure
  by_cases hs : c1.state = CBState.HALF_OPEN
  · have hs2 : c2.state = CBState.HALF_OPEN := by rw [← hst]; exact hs
    simp only [hs, hs2, if_pos]
    exact ⟨hft, hrt, hhr, by simp [CircuitBreaker.changeState],
      by simp [CircuitBreaker.changeState, hfc], by simp [CircuitBreaker.changeState, hsc],
      by simp [CircuitBreaker.changeState]⟩
  · have hs2 : ¬ c2.state = CBState.HALF_OPEN := by rw [← hst]; exact hs
    by_cases hth : c1.failureThreshold ≤ c1.failureCount + 1
    · have hth2 : c2.failureThreshold ≤ c2.failureCount + 1 := by
        rw [← hft, ← hfc]; exact hth
      simp only [hs, hs2, hth, hth2, if_pos, if_neg, not_false_iff]
      exact ⟨hft, hrt, hhr, by simp [CircuitBreaker.changeState],
        by simp [CircuitBreaker.changeState, hfc], by simp [CircuitBreaker.changeState, hsc],
        by simp [CircuitBreaker.changeState]⟩
    · have hth2 : ¬ c2.failureThreshold ≤ c2.failureCount + 1 := by
        rw [← hft, ← hfc]; exact hth
      simp only [hs, hs2, hth, hth2, if_neg, not_false_iff]
      exact ⟨hft, hrt, hhr, hst, by simp [hfc], hsc, fun _ => rfl⟩

lemma execute_rel (c1 c2 : CircuitBreaker) (t : Int) (b : Bool) (h : cbRel c1 c2) :
    (c1.execute t b).outcome = (c2.execute t b).outcome ∧
    cbRel (c1.execute t b).cb (c2.execute t b).cb := by
  have h1 : cbRel
      { c1 with stats := { c1.stats with totalRequests := c1.stats.totalRequests + 1 } }
      { c2 with stats := { c2.stats with totalRequests := c2.stats.totalRequests + 1 } } := h
  have h2 := evaluateState_rel _ _ t h1
  simp only [CircuitBreaker.execute]
  by_cases ho : ({ c1 with
      stats := { c1.stats with totalRequests := c1.stats.totalRequests + 1 } }.evaluateState t).state
      = CBState.OPEN
  · have ho2 : ({ c2 with
        stats := { c2.stats with totalRequests := c2.stats.totalRequests + 1 } }.evaluateState t).state
        = CBState.OPEN := by rw [← h2.2.2.2.1]; exact ho
    rw [if_pos ho, if_pos ho2]
    exact ⟨rfl, h2⟩
  · have ho2 : ¬ ({ c2 with
        stats := { c2.stats with totalRequests := c2.stats.totalRequests + 1 } }.evaluateState t).state
        = CBState.OPEN := by rw [← h2.2.2.2.1]; exact ho
    rw [if_neg ho, if_neg ho2]
    cases b
    · simp only [Bool.false_eq_true, if_false]
      refine ⟨by simp, onFailure_rel _ _ t h2⟩
    · simp only [if_true]
      refine ⟨by simp, onSuccess_rel _ _ h2⟩

lemma runCBOut_rel : ∀ (calls : List (Int × Bool)) (c1 c2 : CircuitBreaker), cbRel c1 c2 →
    runCBOut c1 calls = runCBOut c2 calls := by
  intro calls
  induction calls with
  | nil => intro c1 c2 _; rfl
  | cons c cs ih =>
    intro c1 c2 h
    have hstep := execute_rel c1 c2 c.1 c.2 h
    simp only [runCBOut]
    rw [hstep.1, ih _ _ hstep.2]

/-- `cb` with the mutable working state of a freshly constructed breaker
(same configuration, `CLOSED`, zero counters, null `lastFailureTime`,
zero stats). -/
def freshCircuitBreaker (cb : CircuitBreaker) : CircuitBreaker :=
  { failureThreshold := cb.failureThreshold
    resetTimeout := cb.resetTimeout
    halfOpenRequests := cb.halfOpenRequests
    state := CBState.CLOSED
    failureCount := 0
    successCount := 0
    lastFailureTime := 0
    halfOpenAttempts := 0
    stats := ⟨0, 0, 0, 0, []⟩ }

/-- `rl` with the mutable state of a freshly constructed limiter. -/
def freshRateLimiter (rl : RateLimiter) : RateLimiter :=
  { rl with requests := [], stats := ⟨0, 0, 0⟩ }

/-- C6 amended: `RateLimiter.reset` clears the recorded timestamps (its
cumulative stats counters are retained), and `CircuitBreaker.reset`
returns any breaker — in particular an `OPEN` one with pending counters
— to `CLOSED` with the failure, half-open success and half-open attempt
counters zeroed (its stats and `lastFailureTime` are retained); after
reset, both components make exactly the same admission and call
decisions as a freshly constructed component with the same
configuration. -/
theorem reset_restores_fresh_behaviour :
    (∀ rl : RateLimiter, rl.reset.requests = [] ∧ rl.reset.stats = rl.stats) ∧
    (∀ cb : CircuitBreaker, cb.reset.state = CBState.CLOSED ∧
      cb.reset.failureCount = 0 ∧ cb.reset.successCount = 0 ∧
      cb.reset.halfOpenAttempts = 0 ∧ cb.reset.stats = cb.stats ∧
      cb.reset.lastFailureTime = cb.lastFailureTime) ∧
    (∀ (rl : RateLimiter) (ts : List Int),
      (runTA rl.reset ts).1 = (runTA (freshRateLimiter rl) ts).1) ∧
    (∀ (cb : CircuitBreaker) (calls : List (Int × Bool)),
      runCBOut cb.reset calls = runCBOut (freshCircuitBreaker cb) calls) := by
  refine ⟨?_, ?_, ?_, ?_⟩
  · intro rl
    exact ⟨rfl, rfl⟩
  · intro cb
    exact ⟨rfl, rfl, rfl, rfl, rfl, rfl⟩
  · intro rl ts
    exact runTA_rel ts _ _ ⟨rfl, rfl, rfl⟩
  · intro cb calls
    refine runCBOut_rel calls _ _ ⟨rfl, rfl, rfl, rfl, rfl, rfl, ?_⟩
    intro hopen
    simp [CircuitBreaker.reset, CircuitBreaker.resetCounts] at hopen

/-! ## Bulkhead lemmas -/

lemma acquireSlot_fields (b : Bulkhead) :
    b.acquireSlot.queue = b.queue ∧ b.acquireSlot.queueSize = b.queueSize ∧
    b.acquireSlot.nextId = b.nextId := by
  simp only [Bulkhead.acquireSlot]
  split <;> exact ⟨rfl, rfl, rfl⟩

lemma arrive_full (b : Bulkhead) (h1 : b.maxConcurrent ≤ b.currentConcurrent)
    (h2 : b.queueSize ≤ b.queue.length) :
    (b.arrive).2 = BHOutput.rejectedFull b.nextId ∧ (b.arrive).1.queue = b.queue := by
  simp only [Bulkhead.arrive]
  rw [if_neg (show ¬ b.currentConcurrent < b.maxConcurrent by omega)]
  rw [if_pos (show b.queueSize ≤ b.queue.length from h2)]
  exact ⟨rfl, rfl⟩

lemma arrive_bound (b : Bulkhead) (h : b.queue.length ≤ b.queueSize) :
    (b.arrive).1.queue.length ≤ b.queueSize ∧ (b.arrive).1.queueSize = b.queueSize := by
  simp only [Bulkhead.arrive]
  split
  · rw [(acquireSlot_fields _).1, (acquireSlot_fields _).2.1]
    exact ⟨h, rfl⟩
  · split
    · exact ⟨h, rfl⟩
    · rename_i hroom
      constructor
      · simp only [List.length_append, List.length_cons, List.length_nil]
        omega
      · rfl

lemma releaseSlot_bound (b : Bulkhead) :
    (b.releaseSlot).1.queue.length ≤ b.queue.length ∧
    (b.releaseSlot).1.queueSize = b.queueSize := by
  simp only [Bulkhead.releaseSlot]
  split
  · exact ⟨le_refl _, rfl⟩
  · rename_i hd tl hq
    split
    · rw [(acquireSlot_fields _).1, (acquireSlot_fields _).2.1]
      rw [hq]
      exact ⟨by simp, rfl⟩
    · exact ⟨le_refl _, rfl⟩

lemma complete_bound (b : Bulkhead) (s : Bool) :
    (b.complete s).1.queue.length ≤ b.queue.length ∧
    (b.complete s).1.queueSize = b.queueSize := by
  simp only [Bulkhead.complete]
  split
  · exact releaseSlot_bound _
  · exact releaseSlot_bound _

lemma timerFire_bound (b : Bulkhead) (j : Nat) :
    (b.timerFire j).1.queue.length ≤ b.queue.length ∧
    (b.timerFire j).1.queueSize = b.queueSize := by
  simp only [Bulkhead.timerFire]
  split
  · exact ⟨List.length_erase_le j b.queue, rfl⟩
  · exact ⟨le_refl _, rfl⟩

lemma stepBH_queue_bound (b : Bulkhead) (e : BHEvent) (h : b.queue.length ≤ b.queueSize) :
    (stepBH b e).1.queue.length ≤ b.queueSize ∧ (stepBH b e).1.queueSize = b.queueSize := by
  cases e with
  | arrive => exact arrive_bound b h
  | complete s => exact ⟨(complete_bound b s).1.trans h, (complete_bound b s).2⟩
  | timerFire j => exact ⟨(timerFire_bound b j).1.trans h, (timerFire_bound b j).2⟩

lemma runBH_queue_bound : ∀ (es : List BHEvent) (b : Bulkhead),
    b.queue.length ≤ b.queueSize →
    (runBH b es).1.queue.length ≤ b.queueSize ∧ (runBH b es).1.queueSize = b.queueSize := by
  intro es
  induction es with
  | nil => intro b h; exact ⟨h, rfl⟩
  | cons e es ih =>
    intro b h
    have hstep := stepBH_queue_bound b e h
    have hrec := ih (stepBH b e).1 (by rw [hstep.2]; exact hstep.1)
    simp only [runBH]
    exact ⟨by rw [← hstep.2]; exact hrec.1, hrec.2.trans hstep.2⟩

/-- Invariant of reachable bulkhead states: queued ids are distinct and
were all assigned before `nextId`. -/
def bhInv (b : Bulkhead) : Prop :=
  b.queue.Nodup ∧ ∀ j ∈ b.queue, j < b.nextId

lemma arrive_inv (b : Bulkhead) (h : bhInv b) : bhInv (b.arrive).1 := by
  obtain ⟨hnd, hlt⟩ := h
  simp only [Bulkhead.arrive, bhInv]
  split
  · rw [(acquireSlot_fields _).1, (acquireSlot_fields _).2.2]
    exact ⟨hnd, fun j hj => Nat.lt_succ_of_lt (hlt j hj)⟩
  · split
    · exact ⟨hnd, fun j hj => Nat.lt_succ_of_lt (hlt j hj)⟩
    · constructor
      · rw [List.nodup_append]
        refine ⟨hnd, List.nodup_singleton _, ?_⟩
        intro j hj hj2
        simp only [List.mem_singleton] at hj2
        rw [hj2] at hj
        exact absurd (hlt _ hj) (Nat.lt_irrefl _)
      · intro j hj
        rcases List.mem_append.mp hj with hj | hj
        · exact Nat.lt_succ_of_lt (hlt j hj)
        · simp only [List.mem_singleton] at hj
          subst hj
          exact Nat.lt_succ_self _

lemma releaseSlot_inv (b : Bulkhead) (h : bhInv b) : bhInv (b.releaseSlot).1 := by
  obtain ⟨hnd, hlt⟩ := h
  simp only [Bulkhead.releaseSlot, bhInv]
  split
  · exact ⟨hnd, hlt⟩
  · rename_i hd tl hq
    split
    · rw [(acquireSlot_fields _).1, (acquireSlot_fields _).2.2]
      rw [hq] at hnd hlt
      exact ⟨(List.nodup_cons.mp hnd).2, fun j hj => hlt j (List.mem_cons_of_mem hd hj)⟩
    · exact ⟨hnd, hlt⟩

lemma complete_inv (b : Bulkhead) (s : Bool) (h : bhInv b) : bhInv (b.complete s).1 := by
  simp only [Bulkhead.complete]
  split
  · exact releaseSlot_inv _ h
  · exact releaseSlot_inv _ h

lemma timerFire_inv (b : Bulkhead) (j : Nat) (h : bhInv b) : bhInv (b.timerFire j).1 := by
  obtain ⟨hnd, hlt⟩ := h
  simp only [Bulkhead.timerFire, bhInv]
  split
  · exact ⟨hnd.erase j, fun k hk => hlt k (List.mem_of_mem_erase hk)⟩
  · exact ⟨hnd, hlt⟩

lemma stepBH_inv (b : Bulkhead) (e : BHEvent) (h : bhInv b) : bhInv (stepBH b e).1 := by
  cases e with
  | arrive => exact arrive_inv b h
  | complete s => exact complete_inv b s h
  | timerFire j => exact timerFire_inv b j h

lemma releaseSlot_nextId (b : Bulkhead) : (b.releaseSlot).1.nextId = b.nextId := by
  simp only [Bulkhead.releaseSlot]
  split
  · rfl
  · split
    · rw [(acquireSlot_fields _).2.2]
    · rfl

lemma complete_nextId (b : Bulkhead) (s : Bool) : (b.complete s).1.nextId = b.nextId := by
  simp only [Bulkhead.complete]
  split
  · exact releaseSlot_nextId _
  · exact releaseSlot_nextId _

lemma timerFire_nextId (b : Bulkhead) (j : Nat) : (b.timerFire j).1.nextId = b.nextId := by
  simp only [Bulkhead.timerFire]
  split
  · rfl
  · rfl

lemma stepBH_nextId_mono (b : Bulkhead) (e : BHEvent) : b.nextId ≤ (stepBH b e).1.nextId := by
  cases e with
  | arrive =>
    simp only [stepBH, Bulkhead.arrive]
    split
    · rw [(acquireSlot_fields _).2.2]
      exact Nat.le_succ _
    · split
      · exact Nat.le_succ _
      · exact Nat.le_succ _
  | complete s =>
    simp only [stepBH]
    exact le_of_eq (complete_nextId b s).symm
  | timerFire j =>
    simp only [stepBH]
    exact le_of_eq (timerFire_nextId b j).symm

lemma arrive_out_not_res (b : Bulkhead) (i : Nat) :
    queuedResolutions i [(b.arrive).2] = 0 := by
  simp only [Bulkhead.arrive]
  split
  · rfl
  · split
    · rfl
    · rfl

lemma arrive_queue_sup (b : Bulkhead) (i : Nat) (hni : i ∉ b.queue) (hlt : i < b.nextId) :
    i ∉ (b.arrive).1.queue := by
  simp only [Bulkhead.arrive]
  split
  · rw [(acquireSlot_fields _).1]
    exact hni
  · split
    · exact hni
    · intro hmem
      rcases List.mem_append.mp hmem with h1 | h1
      · exact hni h1
      · simp only [List.mem_singleton] at h1
        omega

lemma releaseSlot_out_cases (b : Bulkhead) (h : bhInv b) (i : Nat) :
    (queuedResolutions i (b.releaseSlot).2.toList = 0 ∧
      (i ∉ b.queue → i ∉ (b.releaseSlot).1.queue)) ∨
    (queuedResolutions i (b.releaseSlot).2.toList = 1 ∧ i ∈ b.queue ∧
      i ∉ (b.releaseSlot).1.queue) := by
  obtain ⟨hnd, hlt⟩ := h
  simp only [Bulkhead.releaseSlot]
  split
  · left
    exact ⟨rfl, fun hni => hni⟩
  · rename_i hd tl hq
    split
    · by_cases hij : i = hd
      · right
        subst hij
        refine ⟨by simp [queuedResolutions], by rw [hq]; exact List.mem_cons_self _ _, ?_⟩
        rw [(acquireSlot_fields _).1]
        rw [hq] at hnd
        exact (List.nodup_cons.mp hnd).1
      · left
        have hji : hd ≠ i := Ne.symm hij
        refine ⟨by simp [queuedResolutions, hji], ?_⟩
        intro hni
        rw [(acquireSlot_fields _).1]
        intro hmem
        exact hni (by rw [hq]; exact List.mem_cons_of_mem _ hmem)
    · left
      exact ⟨rfl, fun hni => hni⟩

lemma complete_out_cases (b : Bulkhead) (s : Bool) (h : bhInv b) (i : Nat) :
    (queuedResolutions i (b.complete s).2.toList = 0 ∧
      (i ∉ b.queue → i ∉ (b.complete s).1.queue)) ∨
    (queuedResolutions i (b.complete s).2.toList = 1 ∧ i ∈ b.queue ∧
      i ∉ (b.complete s).1.queue) := by
  simp only [Bulkhead.complete]
  split
  · refine releaseSlot_out_cases _ ?_ i
    exact h
  · refine releaseSlot_out_cases _ ?_ i
    exact h

lemma timerFire_out_cases (b : Bulkhead) (j : Nat) (h : bhInv b) (i : Nat) :
    (queuedResolutions i (b.timerFire j).2.toList = 0 ∧
      (i ∉ b.queue → i ∉ (b.timerFire j).1.queue)) ∨
    (queuedResolutions i (b.timerFire j).2.toList = 1 ∧ i ∈ b.queue ∧
      i ∉ (b.timerFire j).1.queue) := by
  obtain ⟨hnd, hlt⟩ := h
  simp only [Bulkhead.timerFire]
  split
  · rename_i hjq
    by_cases hij : i = j
    · right
      subst hij
      exact ⟨by simp [queuedResolutions], hjq, hnd.not_mem_erase⟩
    · left
      have hji : j ≠ i := Ne.symm hij
      refine ⟨by simp [queuedResolutions, hji], ?_⟩
      intro hni hmem
      exact hni (List.mem_of_mem_erase hmem)
  · left
    exact ⟨rfl, fun hni => hni⟩

lemma stepBH_out_cases (b : Bulkhead) (e : BHEvent) (h : bhInv b) (i : Nat) :
    (queuedResolutions i (stepBH b e).2 = 0 ∧
      (i ∉ b.queue → i < b.nextId → i ∉ (stepBH b e).1.queue)) ∨
    (queuedResolutions i (stepBH b e).2 = 1 ∧ i ∈ b.queue ∧ i ∉ (stepBH b e).1.queue) := by
  cases e with
  | arrive =>
    left
    exact ⟨arrive_out_not_res b i, fun hni hlt => arrive_queue_sup b i hni hlt⟩
  | complete s =>
    rcases complete_out_cases b s h i with ⟨hc, himp⟩ | hc
    · left
      exact ⟨hc, fun hni _ => himp hni⟩
    · right
      exact hc
  | timerFire j =>
    rcases timerFire_out_cases b j h i with ⟨hc, himp⟩ | hc
    · left
      exact ⟨hc, fun hni _ => himp hni⟩
    · right
      exact hc

lemma runBH_inv : ∀ (es : List BHEvent) (b : Bulkhead), bhInv b → bhInv (runBH b es).1 := by
  intro es
  induction es with
  | nil => intro b h; exact h
  | cons e es ih =>
    intro b h
    exact ih (stepBH b e).1 (stepBH_inv b e h)

lemma runBH_resolutions (i : Nat) : ∀ (es : List BHEvent) (b : Bulkhead), bhInv b →
    queuedResolutions i (runBH b es).2 ≤ 1 ∧
    (i ∉ b.queue → i < b.nextId → queuedResolutions i (runBH b es).2 = 0) := by
  intro es
  induction es with
  | nil =>
    intro b _
    exact ⟨by simp [queuedResolutions, runBH], fun _ _ => by simp [queuedResolutions, runBH]⟩
  | cons e es ih =>
    intro b h
    have hinv2 := stepBH_inv b e h
    have hmono := stepBH_nextId_mono b e
    have hrec := ih (stepBH b e).1 hinv2
    have happ : queuedResolutions i (runBH b (e :: es)).2 =
        queuedResolutions i (stepBH b e).2 + queuedResolutions i (runBH (stepBH b e).1 es).2 := by
      simp only [runBH, queuedResolutions]
      exact List.countP_append _ _ _
    rcases stepBH_out_cases b e h i with ⟨hc0, himp⟩ | ⟨hc1, hmem, hout⟩
    · constructor
      · rw [happ, hc0]
        simpa using hrec.1
      · intro hni hlt
        rw [happ, hc0]
        have hz := hrec.2 (himp hni hlt) (lt_of_lt_of_le hlt hmono)
        omega
    · constructor
      · rw [happ, hc1]
        have hlt_i : i < b.nextId := h.2 i hmem
        have hz := hrec.2 hout (lt_of_lt_of_le hlt_i hmono)
        omega
      · intro hni _
        exact absurd hmem hni

/-- C8: when a call arrives while `currentConcurrent ≥ maxConcurrent` and
the pending queue already holds `maxQueueSize` entries, `execute` fails
immediately with `BULKHEAD_FULL` and does not enqueue the call; and in
every state reachable from a constructed bulkhead the queue length never
exceeds `maxQueueSize`. -/
theorem bulkhead_full_fails_fast :
    (∀ b : Bulkhead, b.maxConcurrent ≤ b.currentConcurrent → b.queue.length = b.queueSize →
      (b.arrive).2 = BHOutput.rejectedFull b.nextId ∧ (b.arrive).1.queue = b.queue) ∧
    (∀ (o : BHOptions) (es : List BHEvent),
      (runBH (mkBulkhead o) es).1.queue.length ≤ (mkBulkhead o).queueSize) := by
  constructor
  · intro b h1 h2
    exact arrive_full b h1 (le_of_eq h2.symm)
  · intro o es
    exact (runBH_queue_bound es (mkBulkhead o) (by simp [mkBulkhead])).1

/-- C8 witness: a bulkhead with one slot and a one-entry queue, both
occupied, rejects the next arrival with `BULKHEAD_FULL`. -/
theorem bulkhead_full_fails_fast_witness :
    ((runBH (mkBulkhead { maxConcurrent := some 1, queueSize := some 1 })
        [BHEvent.arrive, BHEvent.arrive]).1.arrive).2 =
      BHOutput.rejectedFull (runBH (mkBulkhead { maxConcurrent := some 1, queueSize := some 1 })
        [BHEvent.arrive, BHEvent.arrive]).1.nextId :=
  (bulkhead_full_fails_fast.1 _ (by decide) (by decide)).1

/-- C9: a queued call whose deadline timer fires while it is still queued
is removed from the pending queue and failed with `BULKHEAD_TIMEOUT`
(the timer firing is the model of its wait exceeding `maxWaitDuration`);
and each queued call resolves at most once — over any run from a
constructed bulkhead, the resolutions of entry `i` (timed out, or
granted a slot on release) never number more than one, so a call that
timed out is never later also granted a slot. -/
theorem bulkhead_timeout_exactly_once :
    (∀ (o : BHOptions) (es : List BHEvent) (i : Nat),
      i ∈ (runBH (mkBulkhead o) es).1.queue →
        ((runBH (mkBulkhead o) es).1.timerFire i).2 = some (BHOutput.timedOut i) ∧
        i ∉ ((runBH (mkBulkhead o) es).1.timerFire i).1.queue) ∧
    (∀ (o : BHOptions) (es : List BHEvent) (i : Nat),
      queuedResolutions i (runBH (mkBulkhead o) es).2 ≤ 1) := by
  constructor
  · intro o es i hi
    have hinv := runBH_inv es (mkBulkhead o) ⟨List.nodup_nil, by simp [mkBulkhead]⟩
    constructor
    · simp only [Bulkhead.timerFire]
      rw [if_pos hi]
    · simp only [Bulkhead.timerFire]
      rw [if_pos hi]
      exact hinv.1.not_mem_erase
  · intro o es i
    exact (runBH_resolutions i es (mkBulkhead o) ⟨List.nodup_nil, by simp [mkBulkhead]⟩).1

/-- C9 witness: with one slot taken and call 1 queued, firing its timer
yields `BULKHEAD_TIMEOUT` for entry 1. -/
theorem bulkhead_timeout_exactly_once_witness :
    ((runBH (mkBulkhead { maxConcurrent := some 1, queueSize := some 1 })
        [BHEvent.arrive, BHEvent.arrive]).1.timerFire 1).2 = some (BHOutput.timedOut 1) :=
  (bulkhead_timeout_exactly_once.1 _ [BHEvent.arrive, BHEvent.arrive] 1 (by decide)).1

/-- C10: in every component constructor, an explicitly supplied falsy
configuration value (`0`) is silently replaced by the documented default
rather than honored: a `RetryPattern` built with `maxRetries: 0` has
`maxRetries = 3` and invokes an always-failing operation 4 times, a
`RateLimiter` built with `maxRequests: 0` has `maxRequests = 10` and
admits 10 requests in a window before rejecting the 11th, and likewise
for every other numeric option of the four constructors. -/
theorem constructor_falsy_defaults :
    (mkRetryPattern { maxRetries := some 0 }).maxRetries = 3 ∧
    ((mkRetryPattern { maxRetries := some 0 }).execute opAlwaysFail).invocations = 4 ∧
    (mkRetryPattern { delay := some 0 }).delay = 1000 ∧
    (mkRetryPattern { backoffMultiplier := some 0 }).backoffMultiplier = 2 ∧
    (mkRetryPattern { maxDelay := some 0 }).maxDelay = 10000 ∧
    (mkRateLimiter { maxRequests := some 0 }).maxRequests = 10 ∧
    (mkRateLimiter { windowMs := some 0 }).windowMs = 60000 ∧
    (runTA (mkRateLimiter { maxRequests := some 0 })
      [0, 1, 2, 3, 4, 5, 6, 7, 8, 9]).1 = List.replicate 10 true ∧
    ((runTA (mkRateLimiter { maxRequests := some 0 })
      [0, 1, 2, 3, 4, 5, 6, 7, 8, 9]).2.tryAcquire 10).1 = false ∧
    (mkCircuitBreaker { failureThreshold := some 0 }).failureThreshold = 5 ∧
    (mkCircuitBreaker { resetTimeout := some 0 }).resetTimeout = 30000 ∧
    (mkCircuitBreaker { halfOpenRequests := some 0 }).halfOpenRequests = 3 ∧
    (mkBulkhead { maxConcurrent := some 0 }).maxConcurrent = 10 ∧
    (mkBulkhead { maxWait := some 0 }).maxWait = 5000 ∧
    (mkBulkhead { queueSize := some 0 }).queueSize = 20 := by
  decide
